import Mathlib

/-!
Verification of the actix-web detached-JWS middleware against its
natural-language specification.  The Rust sources are shallowly embedded:

* src/buffering.rs : the Buffer sum type, FileBufferingStream state,
  write_to_buffer, read_from_buffer, the Stream and MessageBody poll_next
  implementations and the Drop handler.
* src/verify.rs    : the verify middleware's call orchestration.
* src/sign.rs      : the sign middleware's call orchestration.

Byte chunks are lists of naturals; machine usize arithmetic never overflows
in the code paths modelled (pure additions of buffer sizes), so Nat is used
directly.  The external detached_jws crate (token parsing, signing and
verifying primitives) is not part of this repository; those capabilities are
modelled from the spec as abstract parameters, marked in doc comments.
-/

/-- A body chunk: the Bytes payload of one stream item. -/
abbrev Chunk := List Nat

/-- src/buffering.rs enum Buffer: either an in-memory accumulator or a
spilled temporary file.  A real File handle is modelled by its byte contents
together with the OS read/write cursor position. -/
inductive Buffer where
  | memory (data : List Nat)
  | file (path : String) (contents : List Nat) (pos : Nat)
deriving Repr, DecidableEq

/-- The logical bytes held by a buffer, independent of storage mode. -/
def Buffer.contents : Buffer → List Nat
  | .memory data => data
  | .file _ c _ => c

/-- Whether the buffer has spilled to a file. -/
def Buffer.isFile : Buffer → Bool
  | .memory _ => false
  | .file _ _ _ => true

/-- Errors of a payload stream item (actix PayloadError in the source). -/
inductive PayloadErr where
  | overflow
  | innerErr
  | ioErr
deriving Repr, DecidableEq

instance {ε α : Type _} [DecidableEq ε] [DecidableEq α] :
    DecidableEq (Except ε α) := fun x y =>
  match x, y with
  | .ok a, .ok b =>
      if h : a = b then isTrue (by simp [h]) else isFalse (by simp [h])
  | .ok _, .error _ => isFalse (by simp)
  | .error _, .ok _ => isFalse (by simp)
  | .error e, .error f =>
      if h : e = f then isTrue (by simp [h]) else isFalse (by simp [h])

/-- src/buffering.rs struct FileBufferingStream.  The wrapped inner stream
is modelled by its remaining items (an Ok chunk or an error);
tmp_dir only contributes to the spill path name, which is supplied as the
freshPath argument of write_to_buffer. -/
structure FileBufferingStream where
  inner : List (Except Unit Chunk)
  inner_eof : Bool
  threshold : Nat
  produce_block_size : Nat
  buffer_limit : Option Nat
  buffer : Buffer
  buffer_size : Nat
  produce_index : Nat
deriving Repr, DecidableEq

/-- FileBufferingStream::new with the given configuration
(FileBufferingStreamBuilder defaults: threshold 30720, block 30720,
no limit). -/
def FileBufferingStream.new (inner : List (Except Unit Chunk))
    (threshold produce_block_size : Nat) (buffer_limit : Option Nat) :
    FileBufferingStream :=
  { inner := inner
    inner_eof := false
    threshold := threshold
    produce_block_size := produce_block_size
    buffer_limit := buffer_limit
    buffer := .memory []
    buffer_size := 0
    produce_index := 0 }

/-- src/buffering.rs FileBufferingStream::write_to_buffer.  In memory mode:
if threshold < current length + incoming length, a fresh uniquely-named file
is created (create_new on tmp_dir/Uuid, modelled by the freshPath argument),
the whole memory contents then the incoming chunk are written to it, and the
buffer becomes the File variant; otherwise the chunk extends the memory
buffer.  In file mode, write_all writes the chunk at the file cursor
(in every reachable write-phase state the cursor sits at end of file, so
this appends).  Finally buffer_size increases by the chunk length. -/
def write_to_buffer (freshPath : String) (s : FileBufferingStream)
    (bytes : Chunk) : FileBufferingStream :=
  match s.buffer with
  | .memory mem =>
      if s.threshold < mem.length + bytes.length then
        { s with
            buffer := .file freshPath (mem ++ bytes) (mem.length + bytes.length)
            buffer_size := s.buffer_size + bytes.length }
      else
        { s with
            buffer := .memory (mem ++ bytes)
            buffer_size := s.buffer_size + bytes.length }
  | .file p contents pos =>
      { s with
          buffer := .file p
            (contents.take pos ++ bytes ++ contents.drop (pos + bytes.length))
            (pos + bytes.length)
          buffer_size := s.buffer_size + bytes.length }

/-- src/buffering.rs FileBufferingStream::read_from_buffer.  Terminal read
(buffer_size <= produce_index): reset the cursor to zero and return the
empty marker.  Memory mode: slice out the next block.  File mode: seek to
zero when the cursor is zero, then read_exact the next block at the file
position; a short file yields an io error (read_exact failure), with the
produce_index already advanced as in the source. -/
def read_from_buffer (s : FileBufferingStream) :
    FileBufferingStream × Except Unit Chunk :=
  let block_size := s.produce_block_size
  let buffer_size := s.buffer_size
  let current_index := s.produce_index
  if buffer_size ≤ current_index then
    ({ s with produce_index := 0 }, .ok [])
  else
    match s.buffer with
    | .memory mem =>
        if buffer_size ≤ current_index + block_size then
          ({ s with produce_index := buffer_size },
            .ok (mem.drop current_index))
        else
          ({ s with produce_index := current_index + block_size },
            .ok ((mem.drop current_index).take block_size))
    | .file p contents pos =>
        let pos0 := if current_index = 0 then 0 else pos
        let n := if buffer_size ≤ current_index + block_size then
            buffer_size - current_index else block_size
        let newIndex := if buffer_size ≤ current_index + block_size then
            buffer_size else current_index + block_size
        if pos0 + n ≤ contents.length then
          ({ s with produce_index := newIndex
                    buffer := .file p contents (pos0 + n) },
            .ok ((contents.drop pos0).take n))
        else
          ({ s with produce_index := newIndex
                    buffer := .file p contents pos0 }, .error ())

/-- src/buffering.rs, the Stream implementation's poll_next (the variant
with the active buffer_limit check).  While the inner stream is live:
an Ok chunk is first checked against buffer_limit (if configured and
buffer_size + len exceeds it, an Overflow error is yielded and the chunk is
not buffered), otherwise it is written to the buffer and passed through;
an Err item passes through unbuffered; inner end sets inner_eof and yields
None.  After inner_eof, chunks are replayed from the buffer, an empty read
signalling end of stream. -/
def streamPollNext (freshPath : String) (s : FileBufferingStream) :
    FileBufferingStream × Option (Except PayloadErr Chunk) :=
  if s.inner_eof = false then
    match s.inner with
    | [] => ({ s with inner_eof := true }, none)
    | .ok o :: rest =>
        match s.buffer_limit with
        | some limit =>
            if s.buffer_size + o.length > limit then
              ({ s with inner := rest }, some (.error .overflow))
            else
              (write_to_buffer freshPath { s with inner := rest } o,
                some (.ok o))
        | none =>
            (write_to_buffer freshPath { s with inner := rest } o,
              some (.ok o))
    | .error _ :: rest => ({ s with inner := rest }, some (.error .innerErr))
  else
    match read_from_buffer s with
    | (s1, .ok bytes) =>
        if bytes.length = 0 then (s1, none) else (s1, some (.ok bytes))
    | (s1, .error _) => (s1, some (.error .ioErr))

/-- src/buffering.rs, the MessageBody implementation's poll_next.  Identical
to the Stream implementation except that the buffer_limit check is absent
(commented out in the source): every Ok chunk is written to the buffer. -/
def bodyPollNext (freshPath : String) (s : FileBufferingStream) :
    FileBufferingStream × Option (Except PayloadErr Chunk) :=
  if s.inner_eof = false then
    match s.inner with
    | [] => ({ s with inner_eof := true }, none)
    | .ok o :: rest =>
        (write_to_buffer freshPath { s with inner := rest } o, some (.ok o))
    | .error _ :: rest => ({ s with inner := rest }, some (.error .innerErr))
  else
    match read_from_buffer s with
    | (s1, .ok bytes) =>
        if bytes.length = 0 then (s1, none) else (s1, some (.ok bytes))
    | (s1, .error _) => (s1, some (.error .ioErr))

/-- Observable effect of the Drop implementation. -/
inductive DropEffect where
  | noFileOp
  | removedFile (path : String)
  | loggedRemoveError (path : String)
deriving Repr, DecidableEq

/-- src/buffering.rs, the Drop implementation: a memory buffer performs no
file operation; a file buffer removes its backing path, and a removal
failure (removeSucceeds = false) is logged via println rather than
panicking. -/
def dropFileBufferingStream (s : FileBufferingStream)
    (removeSucceeds : Bool) : DropEffect :=
  match s.buffer with
  | .memory _ => .noFileOp
  | .file path _ _ =>
      if removeSucceeds then .removedFile path else .loggedRemoveError path

/-! ## src/verify.rs -/

/-- src/verify.rs enum VerifyErrorType. -/
inductive VerifyErrorType where
  | headerNotFound
  | incorrectSignature
  | other
deriving Repr, DecidableEq

/-- An actix ServiceRequest as the verify middleware observes it: its header
map and its payload stream (remaining items; an item is an Ok chunk or a
payload error).  take_payload leaves the payload empty. -/
structure ServiceRequest where
  headers : List (String × String)
  payload : List (Except Unit Chunk)
deriving Repr, DecidableEq

/-- HeaderMap::get by exact header name (first matching entry). -/
def headerGet (hs : List (String × String)) (name : String) : Option String :=
  (hs.find? (fun kv => kv.1 = name)).map (fun kv => kv.2)

/-- Modelled from the spec: a verifying primitive (the detached_jws Verify
capability), bound to one message; applied to the full payload bytes and
the signature bytes it answers whether the signature matches. -/
abbrev Verifier := List Nat → List Nat → Bool

/-- Modelled from the spec: DeserializeJwsWriter::new of the external
detached_jws crate.  The compact detached token from the header value is
parsed into (protected header, signature bytes); construction fails when
the token is unparseable or when the selector cannot resolve a verifier
for the protected header (unrecognized or unsupported algorithm). -/
def deserializeJwsWriterNew (parse : String → Option (String × List Nat))
    (selector : String → Option Verifier) (jws : String) :
    Option (String × Verifier × List Nat) :=
  match parse jws with
  | none => none
  | some (hdr, sig) =>
      match selector hdr with
      | none => none
      | some v => some (hdr, v, sig)

/-- The while-let loop of verify.rs: each payload item is unwrapped with the
question-mark operator and written to the digest writer; the bytes fed are
the concatenation of the chunks in order, and a payload error aborts the
loop with a propagated (fatal, unclassified) error, modelled as none. -/
def drainPayload : List (Except Unit Chunk) → Option (List Nat)
  | [] => some []
  | .ok c :: rest => (drainPayload rest).map (fun bs => c ++ bs)
  | .error _ :: _ => none

/-- The configuration of the verify middleware (MiddlewareOptions):
the verify_selector together with the token parser of the external crate,
and the optional should_verify policy.  The error_handler only shapes the
HTTP error object for a given VerifyErrorType; the classification itself
(which VerifyErrorType is produced, HeaderNotFound also standing for the
default ErrorBadRequest branch) is what the outcome records. -/
structure VerifyOptions where
  parse : String → Option (String × List Nat)
  selector : String → Option Verifier
  should_verify : Option (ServiceRequest → ServiceRequest × Bool)

/-- Result of Middleware::call in verify.rs: a classified rejection (the
error_handler, or the matching default ErrorBadRequest, is invoked and the
inner service is not), a fatal unclassified payload error, or the request
being forwarded to the inner service (svc.call(req)). -/
inductive VerifyOutcome where
  | rejected (kind : VerifyErrorType)
  | fatalError
  | forwarded (req : ServiceRequest)
deriving Repr, DecidableEq

/-- The verification branch of verify.rs Middleware::call (the body of
if should_verify).  Missing X-JWS-Signature header rejects with
HeaderNotFound; a failed DeserializeJwsWriter::new rejects with Other;
then the payload is taken (take_payload, leaving the request's payload
empty) and streamed into the writer; finish() reporting a signature
mismatch is an error mapped to Other; on success the emptied request is
forwarded. -/
def verifyBranch (opts : VerifyOptions) (req : ServiceRequest) :
    VerifyOutcome :=
  match headerGet req.headers "X-JWS-Signature" with
  | none => .rejected .headerNotFound
  | some jws =>
      match deserializeJwsWriterNew opts.parse opts.selector jws with
      | none => .rejected .other
      | some (_, v, sig) =>
          match drainPayload req.payload with
          | none => .fatalError
          | some bytes =>
              if v bytes sig then .forwarded { req with payload := [] }
              else .rejected .other

/-- verify.rs Middleware::call: evaluate the should_verify policy (the
default, when none is supplied, keeps the request and answers true), then
either run the verification branch or forward the request untouched. -/
def verifyCall (opts : VerifyOptions) (req0 : ServiceRequest) :
    VerifyOutcome :=
  let pr := match opts.should_verify with
    | some f => f req0
    | none => (req0, true)
  if pr.2 then verifyBranch opts pr.1 else .forwarded pr.1

/-! ## src/sign.rs -/

/-- An actix ServiceResponse as the sign middleware observes it: headers and
the body as its chunk stream. -/
structure ServiceResponse where
  headers : List (String × String)
  body : List Chunk
deriving Repr, DecidableEq

/-- The drain loop of sign.rs (while let Some(chunk) = stream.next()):
polls the buffering stream (MessageBody implementation) with fresh spill
names, collecting the chunks written to the digest writer in order; an
error item aborts signing (the question-mark operator), yielding the
failure flag false. -/
def drainAux (names : Nat → String) :
    Nat → Nat → FileBufferingStream →
    List Chunk × FileBufferingStream × Bool
  | 0, _, s => ([], s, false)
  | fuel + 1, k, s =>
      match bodyPollNext (names k) s with
      | (s1, none) => ([], s1, true)
      | (s1, some (.ok c)) =>
          let r := drainAux names fuel (k + 1) s1
          (c :: r.1, r.2.1, r.2.2)
      | (s1, some (.error _)) => ([], s1, false)

/-- One full replay pass over the buffer, as a consumer polling the
buffering stream after inner_eof sees it: chunks are produced until a read
yields empty bytes (Poll::Ready(None)); an io error ends the pass. -/
def readPassAux : Nat → FileBufferingStream →
    List Chunk × FileBufferingStream
  | 0, s => ([], s)
  | fuel + 1, s =>
      match read_from_buffer s with
      | (s1, .ok bytes) =>
          if bytes.length = 0 then ([], s1)
          else
            let r := readPassAux fuel s1
            (bytes :: r.1, r.2)
      | (s1, .error _) => ([], s1)

/-- A full read pass with enough fuel to exhaust the buffer. -/
def readPass (s : FileBufferingStream) :
    List Chunk × FileBufferingStream :=
  readPassAux (s.buffer_size + 1) s

/-- sign.rs Middleware::call, after the inner service produced its
response: wrap the response body in the buffering stream
(enable_response_buffering; its FileBufferingStream mirrors
src/buffering.rs), drain it through the SerializeJwsWriter — tokenOf,
modelled from the spec, maps the complete bytes written to the detached
compact token produced by finish() — then attach the token under
x-jws-signature and hand the same stream back as the response body, which
the caller receives as the replay pass over the buffer.  A payload error
while draining fails the response (none). -/
def signCall (tokenOf : List Nat → String) (names : Nat → String)
    (threshold block : Nat) (limit : Option Nat) (res : ServiceResponse) :
    Option ServiceResponse :=
  let s0 := FileBufferingStream.new (res.body.map Except.ok) threshold
    block limit
  let dr := drainAux names (res.body.length + 1) 0 s0
  if dr.2.2 then
    some { headers := ("x-jws-signature", tokenOf dr.1.flatten) :: res.headers
           body := (readPass dr.2.1).1 }
  else none

/-! ## Write-phase invariants -/

/-- A sequence of write_to_buffer calls with a supply of fresh spill
names. -/
def writeSeq (names : Nat → String) :
    Nat → FileBufferingStream → List Chunk → FileBufferingStream
  | _, s, [] => s
  | k, s, c :: cs => writeSeq names (k + 1) (write_to_buffer (names k) s c) cs

/-- Whether some write in the sequence, starting from the given accumulated
memory size, makes accumulated size plus incoming chunk size exceed the
threshold. -/
def spillsAt (threshold : Nat) : Nat → List Chunk → Bool
  | _, [] => false
  | size, c :: cs =>
      if threshold < size + c.length then true
      else spillsAt threshold (size + c.length) cs

/-- The write-phase well-formedness invariant: buffer_size tracks the
logical contents, and a file buffer's cursor sits at end of file. -/
def writePhaseWf (s : FileBufferingStream) : Prop :=
  s.buffer_size = s.buffer.contents.length ∧
  ∀ p c pos, s.buffer = .file p c pos → pos = c.length

/-- Splitting a byte list into consecutive blocks of the given size
(fuel-driven; with fuel at least the list length and a positive block size
the fuel never runs out). -/
def chunksOfAux (block : Nat) : Nat → List Nat → List (List Nat)
  | 0, _ => []
  | _ + 1, [] => []
  | fuel + 1, x :: xs =>
      (x :: xs).take block :: chunksOfAux block fuel ((x :: xs).drop block)

/-- The block decomposition of a byte list. -/
def chunksOf (block : Nat) (l : List Nat) : List (List Nat) :=
  chunksOfAux block l.length l

/-- A concrete buffering state mid-way through a read pass, used to
instantiate the cursor claims. -/
def midPassState : FileBufferingStream :=
  { inner := [], inner_eof := true, threshold := 5, produce_block_size := 1,
    buffer_limit := none, buffer := .memory [1, 2, 3], buffer_size := 3,
    produce_index := 1 }

/-- The same buffer with the cursor past the end (exhausted pass). -/
def pastEndState : FileBufferingStream :=
  { midPassState with produce_index := 7 }

/-- A buffering state with buffer_limit 1 about to receive a 2-byte chunk. -/
def overLimitState : FileBufferingStream :=
  { inner := [Except.ok [1, 2]], inner_eof := false, threshold := 30720,
    produce_block_size := 30720, buffer_limit := some 1,
    buffer := .memory [], buffer_size := 0, produce_index := 0 }

/-- A buffering state that has spilled to the file "tmp". -/
def fileModeState : FileBufferingStream :=
  { inner := [], inner_eof := true, threshold := 0, produce_block_size := 1,
    buffer_limit := none, buffer := .file "tmp" [9] 1, buffer_size := 1,
    produce_index := 0 }

/-- Options whose token parser and verifier accept everything, with no
should_verify policy and so the default. -/
def acceptOpts : VerifyOptions :=
  { parse := fun _ => some ("h", []),
    selector := fun _ => some (fun _ _ => true),
    should_verify := none }

/-- Options whose verifier rejects every signature (a mismatch), default
policy. -/
def mismatchOpts : VerifyOptions :=
  { parse := fun _ => some ("h", [7]),
    selector := fun _ => some (fun _ _ => false),
    should_verify := none }

/-- Options whose token parser fails (unparseable signature token),
default policy. -/
def noParseOpts : VerifyOptions :=
  { parse := fun _ => none,
    selector := fun _ => some (fun _ _ => true),
    should_verify := none }

/-- A request carrying the signature header and a one-byte body. -/
def signedReq : ServiceRequest :=
  { headers := [("X-JWS-Signature", "tok")], payload := [Except.ok [1]] }

/-- A request without the signature header. -/
def bareReq : ServiceRequest :=
  { headers := [("Content-Type", "text")], payload := [Except.ok [1]] }

@[simp]
theorem write_to_buffer_inner (nm : String) (s : FileBufferingStream)
    (c : Chunk) : (write_to_buffer nm s c).inner = s.inner := by
  obtain ⟨inn, eof, th, bl, lim, buf, size, idx⟩ := s
  cases buf
  · simp only [write_to_buffer]
    split <;> rfl
  · rfl

@[simp]
theorem write_to_buffer_inner_eof (nm : String) (s : FileBufferingStream)
    (c : Chunk) : (write_to_buffer nm s c).inner_eof = s.inner_eof := by
  obtain ⟨inn, eof, th, bl, lim, buf, size, idx⟩ := s
  cases buf
  · simp only [write_to_buffer]
    split <;> rfl
  · rfl

@[simp]
theorem write_to_buffer_threshold (nm : String) (s : FileBufferingStream)
    (c : Chunk) : (write_to_buffer nm s c).threshold = s.threshold := by
  obtain ⟨inn, eof, th, bl, lim, buf, size, idx⟩ := s
  cases buf
  · simp only [write_to_buffer]
    split <;> rfl
  · rfl

@[simp]
theorem write_to_buffer_block (nm : String) (s : FileBufferingStream)
    (c : Chunk) :
    (write_to_buffer nm s c).produce_block_size = s.produce_block_size := by
  obtain ⟨inn, eof, th, bl, lim, buf, size, idx⟩ := s
  cases buf
  · simp only [write_to_buffer]
    split <;> rfl
  · rfl

@[simp]
theorem write_to_buffer_limit (nm : String) (s : FileBufferingStream)
    (c : Chunk) : (write_to_buffer nm s c).buffer_limit = s.buffer_limit := by
  obtain ⟨inn, eof, th, bl, lim, buf, size, idx⟩ := s
  cases buf
  · simp only [write_to_buffer]
    split <;> rfl
  · rfl

@[simp]
theorem write_to_buffer_index (nm : String) (s : FileBufferingStream)
    (c : Chunk) :
    (write_to_buffer nm s c).produce_index = s.produce_index := by
  obtain ⟨inn, eof, th, bl, lim, buf, size, idx⟩ := s
  cases buf
  · simp only [write_to_buffer]
    split <;> rfl
  · rfl

@[simp]
theorem write_to_buffer_size (nm : String) (s : FileBufferingStream)
    (c : Chunk) :
    (write_to_buffer nm s c).buffer_size = s.buffer_size + c.length := by
  obtain ⟨inn, eof, th, bl, lim, buf, size, idx⟩ := s
  cases buf
  · simp only [write_to_buffer]
    split <;> rfl
  · rfl

theorem new_writePhaseWf (inner : List (Except Unit Chunk))
    (th bl : Nat) (lim : Option Nat) :
    writePhaseWf (FileBufferingStream.new inner th bl lim) := by
  constructor
  · rfl
  · intro p c pos h
    simp [FileBufferingStream.new] at h

theorem write_to_buffer_buffer (nm : String) (s : FileBufferingStream)
    (c : Chunk) (hwf : writePhaseWf s) :
    (write_to_buffer nm s c).buffer =
      match s.buffer with
      | .memory mem =>
          if s.threshold < mem.length + c.length then
            .file nm (mem ++ c) (mem.length + c.length)
          else .memory (mem ++ c)
      | .file p contents _ =>
          .file p (contents ++ c) (contents.length + c.length) := by
  obtain ⟨hsize, hpos⟩ := hwf
  obtain ⟨inn, eof, th, bl, lim, buf, size, idx⟩ := s
  cases buf with
  | memory mem =>
      simp only [write_to_buffer]
      split <;> rfl
  | file p contents pos =>
      have hp : pos = contents.length := hpos p contents pos rfl
      subst hp
      simp [write_to_buffer, List.drop_eq_nil_of_le]

theorem write_to_buffer_contents (nm : String) (s : FileBufferingStream)
    (c : Chunk) (hwf : writePhaseWf s) :
    (write_to_buffer nm s c).buffer.contents = s.buffer.contents ++ c := by
  rw [write_to_buffer_buffer nm s c hwf]
  cases hb : s.buffer with
  | memory mem =>
      by_cases ht : s.threshold < mem.length + c.length <;>
        simp [Buffer.contents, ht]
  | file p contents pos => rfl

theorem write_to_buffer_wf (nm : String) (s : FileBufferingStream)
    (c : Chunk) (hwf : writePhaseWf s) :
    writePhaseWf (write_to_buffer nm s c) := by
  constructor
  · rw [write_to_buffer_size, write_to_buffer_contents nm s c hwf,
      List.length_append, hwf.1]
  · intro p cc pos h
    rw [write_to_buffer_buffer nm s c hwf] at h
    cases hb : s.buffer with
    | memory mem =>
        rw [hb] at h
        simp only [] at h
        by_cases ht : s.threshold < mem.length + c.length
        · rw [if_pos ht] at h
          cases h
          simp
        · rw [if_neg ht] at h
          cases h
    | file q contents pos1 =>
        rw [hb] at h
        simp only [] at h
        cases h
        simp

theorem write_to_buffer_isFile (nm : String) (s : FileBufferingStream)
    (c : Chunk) (h : s.buffer.isFile = true) :
    (write_to_buffer nm s c).buffer.isFile = true := by
  obtain ⟨inn, eof, th, bl, lim, buf, size, idx⟩ := s
  cases buf with
  | memory mem => simp [Buffer.isFile] at h
  | file p contents pos => rfl

theorem write_to_buffer_memory (nm : String) (s : FileBufferingStream)
    (mem : List Nat) (c : Chunk) (h : s.buffer = .memory mem) :
    (write_to_buffer nm s c).buffer =
      if s.threshold < mem.length + c.length then
        .file nm (mem ++ c) (mem.length + c.length)
      else .memory (mem ++ c) := by
  obtain ⟨inn, eof, th, bl, lim, buf, size, idx⟩ := s
  cases buf with
  | memory m =>
      cases h
      by_cases ht : th < mem.length + c.length <;> simp [write_to_buffer, ht]
  | file p contents pos => cases h

theorem write_to_buffer_set_inner (nm : String) (s : FileBufferingStream)
    (c : Chunk) (x : List (Except Unit Chunk)) :
    write_to_buffer nm { s with inner := x } c =
      { write_to_buffer nm s c with inner := x } := by
  obtain ⟨inn, eof, th, bl, lim, buf, size, idx⟩ := s
  cases buf with
  | memory mem =>
      by_cases ht : th < mem.length + c.length <;> simp [write_to_buffer, ht]
  | file p contents pos => rfl

theorem writeSeq_set_inner (names : Nat → String) (cs : List Chunk) :
    ∀ (k : Nat) (s : FileBufferingStream) (x : List (Except Unit Chunk)),
    writeSeq names k { s with inner := x } cs =
      { writeSeq names k s cs with inner := x } := by
  induction cs with
  | nil => intro k s x; rfl
  | cons c cs ih =>
      intro k s x
      rw [writeSeq, writeSeq, write_to_buffer_set_inner, ih]

theorem writeSeq_threshold (names : Nat → String) (cs : List Chunk) :
    ∀ (k : Nat) (s : FileBufferingStream),
    (writeSeq names k s cs).threshold = s.threshold := by
  induction cs with
  | nil => intro k s; rfl
  | cons c cs ih =>
      intro k s
      simp only [writeSeq, ih, write_to_buffer_threshold]

theorem writeSeq_block (names : Nat → String) (cs : List Chunk) :
    ∀ (k : Nat) (s : FileBufferingStream),
    (writeSeq names k s cs).produce_block_size = s.produce_block_size := by
  induction cs with
  | nil => intro k s; rfl
  | cons c cs ih =>
      intro k s
      simp only [writeSeq, ih, write_to_buffer_block]

theorem writeSeq_index (names : Nat → String) (cs : List Chunk) :
    ∀ (k : Nat) (s : FileBufferingStream),
    (writeSeq names k s cs).produce_index = s.produce_index := by
  induction cs with
  | nil => intro k s; rfl
  | cons c cs ih =>
      intro k s
      simp only [writeSeq, ih, write_to_buffer_index]

theorem writeSeq_inner_eof (names : Nat → String) (cs : List Chunk) :
    ∀ (k : Nat) (s : FileBufferingStream),
    (writeSeq names k s cs).inner_eof = s.inner_eof := by
  induction cs with
  | nil => intro k s; rfl
  | cons c cs ih =>
      intro k s
      simp only [writeSeq, ih, write_to_buffer_inner_eof]

theorem writeSeq_wf (names : Nat → String) (cs : List Chunk) :
    ∀ (k : Nat) (s : FileBufferingStream), writePhaseWf s →
    writePhaseWf (writeSeq names k s cs) := by
  induction cs with
  | nil => intro k s h; exact h
  | cons c cs ih =>
      intro k s h
      exact ih (k + 1) _ (write_to_buffer_wf (names k) s c h)

theorem writeSeq_contents (names : Nat → String) (cs : List Chunk) :
    ∀ (k : Nat) (s : FileBufferingStream), writePhaseWf s →
    (writeSeq names k s cs).buffer.contents =
      s.buffer.contents ++ cs.flatten := by
  induction cs with
  | nil => intro k s _; simp [writeSeq]
  | cons c cs ih =>
      intro k s h
      rw [writeSeq, ih (k + 1) _ (write_to_buffer_wf (names k) s c h),
        write_to_buffer_contents (names k) s c h]
      simp

theorem writeSeq_isFile_true (names : Nat → String) (cs : List Chunk) :
    ∀ (k : Nat) (s : FileBufferingStream), s.buffer.isFile = true →
    (writeSeq names k s cs).buffer.isFile = true := by
  induction cs with
  | nil => intro k s h; exact h
  | cons c cs ih =>
      intro k s h
      exact ih (k + 1) _ (write_to_buffer_isFile (names k) s c h)

theorem writeSeq_isFile_spillsAt (names : Nat → String) (cs : List Chunk) :
    ∀ (k : Nat) (s : FileBufferingStream) (mem : List Nat),
    s.buffer = .memory mem →
    (writeSeq names k s cs).buffer.isFile =
      spillsAt s.threshold mem.length cs := by
  induction cs with
  | nil =>
      intro k s mem h
      rw [writeSeq, h]
      rfl
  | cons c cs ih =>
      intro k s mem h
      rw [writeSeq, spillsAt]
      by_cases ht : s.threshold < mem.length + c.length
      · rw [if_pos ht]
        apply writeSeq_isFile_true
        rw [write_to_buffer_memory (names k) s mem c h, if_pos ht]
        rfl
      · rw [if_neg ht]
        have hb : (write_to_buffer (names k) s c).buffer =
            .memory (mem ++ c) := by
          rw [write_to_buffer_memory (names k) s mem c h, if_neg ht]
        rw [ih (k + 1) _ (mem ++ c) hb, write_to_buffer_threshold,
          List.length_append]

/-! ## Read-phase: block decomposition of the buffered bytes -/

theorem chunksOfAux_fuel (block : Nat) (hb : 0 < block) :
    ∀ (f1 : Nat) (f2 : Nat) (l : List Nat), l.length ≤ f1 → l.length ≤ f2 →
    chunksOfAux block f1 l = chunksOfAux block f2 l := by
  intro f1
  induction f1 with
  | zero =>
      intro f2 l h1 h2
      have hl : l = [] := List.length_eq_zero.mp (Nat.le_zero.mp h1)
      subst hl
      cases f2 <;> rfl
  | succ f1 ih =>
      intro f2 l h1 h2
      cases l with
      | nil => cases f2 <;> rfl
      | cons x xs =>
          cases f2 with
          | zero => simp at h2
          | succ f2 =>
              rw [chunksOfAux, chunksOfAux]
              congr 1
              apply ih
              · simp only [List.length_drop, List.length_cons] at h1 ⊢
                omega
              · simp only [List.length_drop, List.length_cons] at h2 ⊢
                omega

theorem chunksOf_nil (block : Nat) : chunksOf block [] = [] := rfl

theorem chunksOf_cons (block : Nat) (hb : 0 < block) (l : List Nat)
    (hl : l ≠ []) :
    chunksOf block l = l.take block :: chunksOf block (l.drop block) := by
  cases l with
  | nil => exact absurd rfl hl
  | cons x xs =>
      show chunksOfAux block (x :: xs).length (x :: xs) = _
      rw [List.length_cons, chunksOfAux]
      congr 1
      apply chunksOfAux_fuel block hb
      · simp only [List.length_drop]
        simp
        omega
      · rfl

theorem chunksOf_flatten (block : Nat) (hb : 0 < block) :
    ∀ (fuel : Nat) (l : List Nat), l.length ≤ fuel →
    (chunksOf block l).flatten = l := by
  intro fuel
  induction fuel with
  | zero =>
      intro l h
      have hl : l = [] := List.length_eq_zero.mp (Nat.le_zero.mp h)
      subst hl
      rfl
  | succ fuel ih =>
      intro l h
      cases hl : l with
      | nil => rfl
      | cons x xs =>
          subst hl
          rw [chunksOf_cons block hb (x :: xs) (by simp)]
          rw [List.flatten_cons]
          rw [ih ((x :: xs).drop block) (by
            simp only [List.length_drop, List.length_cons] at h ⊢
            omega)]
          exact List.take_append_drop block (x :: xs)

theorem chunksOf_mem_length (block : Nat) :
    ∀ (fuel : Nat) (l : List Nat) (c : List Nat),
    c ∈ chunksOfAux block fuel l → c.length ≤ block := by
  intro fuel
  induction fuel with
  | zero => intro l c h; simp [chunksOfAux] at h
  | succ fuel ih =>
      intro l c h
      cases l with
      | nil => simp [chunksOfAux] at h
      | cons x xs =>
          rw [chunksOfAux] at h
          cases h with
          | head => simp
          | tail _ h => exact ih _ c h

/-! ## Read-phase: single read characterization -/

theorem read_from_buffer_terminal (s : FileBufferingStream)
    (h : s.buffer_size ≤ s.produce_index) :
    read_from_buffer s = ({ s with produce_index := 0 }, .ok []) := by
  simp only [read_from_buffer]
  rw [if_pos h]

theorem read_from_buffer_memory (s : FileBufferingStream) (mem : List Nat)
    (hbuf : s.buffer = .memory mem) (hsize : s.buffer_size = mem.length)
    (hlt : s.produce_index < s.buffer_size) :
    read_from_buffer s =
      ({ s with produce_index := min s.buffer_size (s.produce_index + s.produce_block_size) },
        .ok ((mem.drop s.produce_index).take s.produce_block_size)) := by
  simp only [read_from_buffer, hbuf]
  rw [if_neg (by omega)]
  by_cases hend : s.buffer_size ≤ s.produce_index + s.produce_block_size
  · rw [if_pos hend, Nat.min_eq_left hend]
    have ht : (mem.drop s.produce_index).take s.produce_block_size =
        mem.drop s.produce_index := by
      apply List.take_of_length_le
      simp only [List.length_drop]
      omega
    rw [ht]
  · rw [if_neg hend, Nat.min_eq_right (by omega)]

theorem read_from_buffer_file (s : FileBufferingStream) (p : String)
    (contents : List Nat) (pos : Nat)
    (hbuf : s.buffer = .file p contents pos)
    (hsize : s.buffer_size = contents.length)
    (hpos : s.produce_index = 0 ∨ pos = s.produce_index)
    (hlt : s.produce_index < s.buffer_size) :
    read_from_buffer s =
      ({ s with
          produce_index := min s.buffer_size (s.produce_index + s.produce_block_size),
          buffer := .file p contents (min s.buffer_size (s.produce_index + s.produce_block_size)) },
        .ok ((contents.drop s.produce_index).take s.produce_block_size)) := by
  have hpos0 : (if s.produce_index = 0 then 0 else pos) = s.produce_index := by
    rcases hpos with h0 | hp
    · rw [h0]
      simp
    · by_cases h0 : s.produce_index = 0
      · rw [if_pos h0, h0]
      · rw [if_neg h0, hp]
  simp only [read_from_buffer, hbuf]
  rw [if_neg (by omega), hpos0]
  by_cases hend : s.buffer_size ≤ s.produce_index + s.produce_block_size
  · simp only [if_pos hend]
    have hn : s.produce_index + (s.buffer_size - s.produce_index) =
        s.buffer_size := by omega
    rw [hn, if_pos (by omega), Nat.min_eq_left hend]
    have ht1 : (contents.drop s.produce_index).take
        (s.buffer_size - s.produce_index) = contents.drop s.produce_index := by
      apply List.take_of_length_le
      simp only [List.length_drop]
      omega
    have ht2 : (contents.drop s.produce_index).take s.produce_block_size =
        contents.drop s.produce_index := by
      apply List.take_of_length_le
      simp only [List.length_drop]
      omega
    rw [ht1, ht2]
  · simp only [if_neg hend]
    rw [if_pos (by omega), Nat.min_eq_right (by omega)]

theorem drop_min_eq (l : List Nat) (a : Nat) :
    l.drop (min l.length a) = l.drop a := by
  rcases le_total a l.length with h | h
  · rw [Nat.min_eq_right h]
  · rw [Nat.min_eq_left h, List.drop_length, List.drop_eq_nil_of_le h]

theorem readPassAux_memory (mem : List Nat) :
    ∀ (fuel : Nat) (s : FileBufferingStream),
    s.buffer = .memory mem → s.buffer_size = mem.length →
    0 < s.produce_block_size →
    mem.length - s.produce_index < fuel →
    readPassAux fuel s =
      (chunksOf s.produce_block_size (mem.drop s.produce_index),
        { s with produce_index := 0 }) := by
  intro fuel
  induction fuel with
  | zero =>
      intro s _ _ _ hf
      omega
  | succ fuel ih =>
      intro s hbuf hsize hbl hf
      obtain ⟨inn, eof, th, bl, lim, buf, size, idx⟩ := s
      simp only at hbuf hsize hbl hf ⊢
      subst hbuf hsize
      by_cases hterm : mem.length ≤ idx
      · rw [readPassAux, read_from_buffer_terminal _ hterm]
        simp only [List.length_nil, if_pos rfl]
        rw [List.drop_eq_nil_of_le hterm]
        rfl
      · rw [readPassAux,
          read_from_buffer_memory _ mem rfl rfl (by simp; omega)]
        simp only []
        have hne : ¬(((mem.drop idx).take bl).length = 0) := by
          simp only [List.length_take, List.length_drop]
          omega
        rw [if_neg hne]
        rw [ih _ rfl rfl hbl (by simp; omega)]
        simp only []
        rw [Prod.mk.injEq]
        refine ⟨?_, rfl⟩
        rw [chunksOf_cons bl hbl (mem.drop idx)
          (by simp only [ne_eq, List.drop_eq_nil_iff]; omega)]
        congr 1
        rw [List.drop_drop, drop_min_eq mem (idx + bl), Nat.add_comm]

theorem readPassAux_file (p : String) (contents : List Nat) :
    ∀ (fuel : Nat) (s : FileBufferingStream) (pos : Nat),
    s.buffer = .file p contents pos → s.buffer_size = contents.length →
    (s.produce_index = 0 ∨ pos = s.produce_index) →
    0 < s.produce_block_size →
    contents.length - s.produce_index < fuel →
    ∃ posEnd,
      readPassAux fuel s =
        (chunksOf s.produce_block_size (contents.drop s.produce_index),
          { s with produce_index := 0, buffer := .file p contents posEnd }) := by
  intro fuel
  induction fuel with
  | zero =>
      intro s pos _ _ _ _ hf
      omega
  | succ fuel ih =>
      intro s pos hbuf hsize hpos hbl hf
      obtain ⟨inn, eof, th, bl, lim, buf, size, idx⟩ := s
      simp only at hbuf hsize hpos hbl hf ⊢
      subst hbuf hsize
      by_cases hterm : contents.length ≤ idx
      · refine ⟨pos, ?_⟩
        rw [readPassAux, read_from_buffer_terminal _ hterm]
        simp only [List.length_nil, if_pos rfl]
        rw [List.drop_eq_nil_of_le hterm]
        rfl
      · rw [readPassAux,
          read_from_buffer_file _ p contents pos rfl rfl hpos (by simp; omega)]
        simp only []
        have hne : ¬(((contents.drop idx).take bl).length = 0) := by
          simp only [List.length_take, List.length_drop]
          omega
        rw [if_neg hne]
        obtain ⟨posEnd, hrec⟩ := ih
          { inner := inn, inner_eof := eof, threshold := th,
            produce_block_size := bl, buffer_limit := lim,
            buffer := .file p contents (min contents.length (idx + bl)),
            buffer_size := contents.length,
            produce_index := min contents.length (idx + bl) }
          (min contents.length (idx + bl)) rfl rfl (Or.inr rfl) hbl
          (by simp; omega)
        rw [hrec]
        refine ⟨posEnd, ?_⟩
        simp only []
        rw [Prod.mk.injEq]
        refine ⟨?_, rfl⟩
        rw [chunksOf_cons bl hbl (contents.drop idx)
          (by simp only [ne_eq, List.drop_eq_nil_iff]; omega)]
        congr 1
        rw [List.drop_drop, drop_min_eq contents (idx + bl), Nat.add_comm]


theorem readPass_spec (s : FileBufferingStream)
    (hwf : s.buffer_size = s.buffer.contents.length)
    (hidx : s.produce_index = 0) (hbl : 0 < s.produce_block_size) :
    ∃ s1, readPass s = (chunksOf s.produce_block_size s.buffer.contents, s1)
      ∧ s1.buffer.contents = s.buffer.contents
      ∧ s1.buffer_size = s.buffer_size
      ∧ s1.produce_index = 0
      ∧ s1.produce_block_size = s.produce_block_size := by
  cases hbuf : s.buffer with
  | memory mem =>
      have hsz : s.buffer_size = mem.length := by
        rw [hwf, hbuf]
        rfl
      have h := readPassAux_memory mem (s.buffer_size + 1) s hbuf hsz hbl
        (by rw [hidx, hsz]; omega)
      refine ⟨{ s with produce_index := 0 }, ?_, ?_, rfl, rfl, rfl⟩
      · rw [readPass, h, hidx, List.drop_zero]
        rfl
      · rw [hbuf]
  | file p contents pos =>
      have hsz : s.buffer_size = contents.length := by
        rw [hwf, hbuf]
        rfl
      obtain ⟨posEnd, h⟩ := readPassAux_file p contents (s.buffer_size + 1)
        s pos hbuf hsz (Or.inl hidx) hbl (by rw [hidx, hsz]; omega)
      refine ⟨{ s with produce_index := 0, buffer := .file p contents posEnd },
        ?_, ?_, rfl, rfl, rfl⟩
      · rw [readPass, h, hidx, List.drop_zero]
        rfl
      · rfl

/-- Claim C6: writes transition the buffer from memory-mode to file-mode at
most once, exactly at the first write where accumulated size plus incoming
chunk size exceeds the threshold (per-prefix characterization by spillsAt);
the buffer contents always equal the bytes written so far in order, the
spill write moving the whole memory contents followed by the incoming chunk
into the fresh uniquely-named file; once in file-mode every further write
appends to that file and the buffer never returns to memory-mode. -/
theorem claim_C6 (names : Nat → String) (th bl : Nat) (lim : Option Nat)
    (inner : List (Except Unit Chunk)) (cs : List Chunk) (j : Nat)
    (c : Chunk) (nm : String) :
    ((writeSeq names 0 (FileBufferingStream.new inner th bl lim)
        (cs.take j)).buffer.contents = (cs.take j).flatten) ∧
    ((writeSeq names 0 (FileBufferingStream.new inner th bl lim)
        (cs.take j)).buffer.isFile = spillsAt th 0 (cs.take j)) ∧
    ((write_to_buffer nm
        (writeSeq names 0 (FileBufferingStream.new inner th bl lim)
          (cs.take j)) c).buffer =
      match (writeSeq names 0 (FileBufferingStream.new inner th bl lim)
          (cs.take j)).buffer with
      | .memory mem =>
          if th < mem.length + c.length then
            .file nm (mem ++ c) (mem.length + c.length)
          else .memory (mem ++ c)
      | .file p contents _ =>
          .file p (contents ++ c) (contents.length + c.length)) := by
  have hwf0 : writePhaseWf (FileBufferingStream.new inner th bl lim) :=
    new_writePhaseWf inner th bl lim
  have hwf : writePhaseWf (writeSeq names 0
      (FileBufferingStream.new inner th bl lim) (cs.take j)) :=
    writeSeq_wf names (cs.take j) 0 _ hwf0
  refine ⟨?_, ?_, ?_⟩
  · rw [writeSeq_contents names (cs.take j) 0 _ hwf0]
    rfl
  · rw [writeSeq_isFile_spillsAt names (cs.take j) 0 _ [] rfl]
    rfl
  · rw [write_to_buffer_buffer nm _ c hwf, writeSeq_threshold]
    rfl

/-- Claim C7 (amended with a positive produce_block_size; the builder
default is 30720): after any completed write sequence, a full read pass
from cursor zero yields chunks each of at most produce_block_size bytes
whose concatenation is exactly the bytes written in order, and the
immediately following full read pass yields the identical chunk sequence,
in both memory-mode and file-mode. -/
theorem claim_C7 (names : Nat → String) (th bl : Nat) (lim : Option Nat)
    (inner : List (Except Unit Chunk)) (cs : List Chunk) (hbl : 0 < bl) :
    (∀ c ∈ (readPass (writeSeq names 0
        (FileBufferingStream.new inner th bl lim) cs)).1, c.length ≤ bl) ∧
    ((readPass (writeSeq names 0
        (FileBufferingStream.new inner th bl lim) cs)).1).flatten =
      cs.flatten ∧
    (readPass ((readPass (writeSeq names 0
        (FileBufferingStream.new inner th bl lim) cs)).2)).1 =
      (readPass (writeSeq names 0
        (FileBufferingStream.new inner th bl lim) cs)).1 := by
  have hwf0 : writePhaseWf (FileBufferingStream.new inner th bl lim) :=
    new_writePhaseWf inner th bl lim
  have hwf : writePhaseWf (writeSeq names 0
      (FileBufferingStream.new inner th bl lim) cs) :=
    writeSeq_wf names cs 0 _ hwf0
  have hcont : (writeSeq names 0
      (FileBufferingStream.new inner th bl lim) cs).buffer.contents =
      cs.flatten := by
    rw [writeSeq_contents names cs 0 _ hwf0]
    rfl
  have hblock : (writeSeq names 0
      (FileBufferingStream.new inner th bl lim) cs).produce_block_size =
      bl := by
    rw [writeSeq_block]
    rfl
  have hidx : (writeSeq names 0
      (FileBufferingStream.new inner th bl lim) cs).produce_index = 0 := by
    rw [writeSeq_index]
    rfl
  obtain ⟨s1, hpass, hc1, hs1, hi1, hb1⟩ :=
    readPass_spec _ hwf.1 hidx (by rw [hblock]; exact hbl)
  obtain ⟨s2, hpass2, _, _, _, _⟩ := readPass_spec s1
    (by rw [hs1, hc1]; exact hwf.1) hi1 (by rw [hb1, hblock]; exact hbl)
  have hsnd : (readPass (writeSeq names 0
      (FileBufferingStream.new inner th bl lim) cs)).2 = s1 := by
    rw [hpass]
  refine ⟨?_, ?_, ?_⟩
  · intro c hc
    rw [hpass, hblock, hcont] at hc
    exact chunksOf_mem_length bl cs.flatten.length cs.flatten c hc
  · rw [hpass, hblock, hcont]
    exact chunksOf_flatten bl hbl cs.flatten.length cs.flatten le_rfl
  · rw [hsnd, hpass2, hb1, hc1, hpass]

/-- Claim C7, as literally stated, fails when the configured
produce_block_size is zero: writing the chunk [1, 2] completes with two
buffered bytes, yet the full read pass from cursor zero delivers no bytes
at all (the first read returns an empty non-terminal chunk, which the
polling loop interprets as end of stream). -/
theorem claim_C7_counterexample :
    ((readPass (writeSeq (fun _ => "t") 0
        (FileBufferingStream.new [] 30720 0 none) [[1, 2]])).1).flatten
      = ([] : List Nat) ∧
    (writeSeq (fun _ => "t") 0
        (FileBufferingStream.new [] 30720 0 none)
        [[1, 2]]).buffer.contents = [1, 2] ∧
    ¬(((readPass (writeSeq (fun _ => "t") 0
        (FileBufferingStream.new [] 30720 0 none) [[1, 2]])).1).flatten
      = (writeSeq (fun _ => "t") 0
        (FileBufferingStream.new [] 30720 0 none)
        [[1, 2]]).buffer.contents) := by
  refine ⟨rfl, rfl, ?_⟩
  decide

/-- Claim C10: the read cursor is reset to zero only by the terminal read of
an exhausted pass (which also returns the empty marker); a non-terminal read
advances the cursor to min buffer_size (cursor + block), in particular it
never decreases the cursor and never resets a positive cursor to zero, so
an abandoned pass leaves the cursor mid-buffer for the next consumer. -/
theorem claim_C10 (s : FileBufferingStream) :
    (s.buffer_size ≤ s.produce_index →
      (read_from_buffer s).1.produce_index = 0 ∧
      (read_from_buffer s).2 = .ok []) ∧
    (s.produce_index < s.buffer_size →
      (read_from_buffer s).1.produce_index =
        min s.buffer_size (s.produce_index + s.produce_block_size) ∧
      s.produce_index ≤ (read_from_buffer s).1.produce_index ∧
      ((read_from_buffer s).1.produce_index = 0 → s.produce_index = 0)) := by
  refine ⟨fun h => ?_, fun h => ?_⟩
  · rw [read_from_buffer_terminal s h]
    exact ⟨rfl, rfl⟩
  · obtain ⟨inn, eof, th, bl, lim, buf, size, idx⟩ := s
    simp only at h ⊢
    cases buf with
    | memory mem =>
        simp only [read_from_buffer]
        rw [if_neg (by omega)]
        by_cases hend : size ≤ idx + bl
        · rw [if_pos hend]
          refine ⟨?_, ?_, ?_⟩
          · show size = min size (idx + bl)
            exact (Nat.min_eq_left hend).symm
          · show idx ≤ size
            omega
          · show size = 0 → idx = 0
            omega
        · rw [if_neg hend]
          refine ⟨?_, ?_, ?_⟩
          · show idx + bl = min size (idx + bl)
            exact (Nat.min_eq_right (by omega)).symm
          · show idx ≤ idx + bl
            omega
          · show idx + bl = 0 → idx = 0
            omega
    | file p contents pos =>
        simp only [read_from_buffer]
        rw [if_neg (by omega)]
        by_cases hend : size ≤ idx + bl
        · simp only [if_pos hend]
          split <;> split <;> refine ⟨?_, ?_, ?_⟩ <;>
            first
            | (show size = min size (idx + bl)
               exact (Nat.min_eq_left hend).symm)
            | (show idx ≤ size
               omega)
            | (show size = 0 → idx = 0
               omega)
        · simp only [if_neg hend]
          split <;> split <;> refine ⟨?_, ?_, ?_⟩ <;>
            first
            | (show idx + bl = min size (idx + bl)
               exact (Nat.min_eq_right (by omega)).symm)
            | (show idx ≤ idx + bl
               omega)
            | (show idx + bl = 0 → idx = 0
               omega)

/-- Concrete instantiation of claim C10: with three buffered bytes, block
size one and the cursor at one, a read advances the cursor to two, not
zero; with the cursor past the end, the terminal read resets it to zero
and returns the empty marker. -/
theorem claim_C10_witness :
    ((read_from_buffer midPassState).1.produce_index =
        min midPassState.buffer_size
          (midPassState.produce_index + midPassState.produce_block_size) ∧
      midPassState.produce_index ≤
        (read_from_buffer midPassState).1.produce_index ∧
      ((read_from_buffer midPassState).1.produce_index = 0 →
        midPassState.produce_index = 0)) ∧
    ((read_from_buffer pastEndState).1.produce_index = 0 ∧
      (read_from_buffer pastEndState).2 = .ok []) :=
  ⟨(claim_C10 midPassState).2 (by decide),
    (claim_C10 pastEndState).1 (by decide)⟩

/-- Claim C5 (amended: only the Stream implementation of poll_next enforces
buffer_limit; the MessageBody implementation's check is commented out in the
source and buffers the chunk regardless, see the counterexample): when a
limit is configured and the bytes already buffered plus the incoming chunk
length exceed it, the Stream implementation yields an Overflow error and
does not buffer the chunk — the buffer and its size are unchanged, only the
inner stream item is consumed. -/
theorem claim_C5 (nm : String) (s : FileBufferingStream) (limit : Nat)
    (chunk : Chunk) (rest : List (Except Unit Chunk))
    (heof : s.inner_eof = false) (hinner : s.inner = .ok chunk :: rest)
    (hlim : s.buffer_limit = some limit)
    (hover : s.buffer_size + chunk.length > limit) :
    streamPollNext nm s =
      ({ s with inner := rest }, some (.error .overflow)) ∧
    (streamPollNext nm s).1.buffer = s.buffer ∧
    (streamPollNext nm s).1.buffer_size = s.buffer_size := by
  have h : streamPollNext nm s =
      ({ s with inner := rest }, some (.error .overflow)) := by
    simp only [streamPollNext, heof, hinner, hlim, if_pos hover]
    simp
  refine ⟨h, ?_, ?_⟩ <;> rw [h]

/-- Concrete instantiation of claim C5: limit 1, incoming chunk of two
bytes; the Stream poll yields Overflow and leaves the buffer empty. -/
theorem claim_C5_witness :
    (streamPollNext "t" overLimitState =
      ({ overLimitState with inner := [] }, some (.error .overflow)) ∧
    (streamPollNext "t" overLimitState).1.buffer = overLimitState.buffer ∧
    (streamPollNext "t" overLimitState).1.buffer_size =
      overLimitState.buffer_size) :=
  claim_C5 "t" overLimitState 1 [1, 2] [] rfl rfl rfl (by decide)

/-- Claim C5, as literally stated over both poll_next implementations,
fails for the MessageBody implementation: with buffer_limit 1 and an
incoming 2-byte chunk, the MessageBody poll buffers the chunk (buffer_size
becomes 2, exceeding the limit) and passes it through instead of yielding
an Overflow error. -/
theorem claim_C5_counterexample :
    (bodyPollNext "t" overLimitState).2 = some (.ok [1, 2]) ∧
    (bodyPollNext "t" overLimitState).1.buffer_size = 2 ∧
    overLimitState.buffer_limit = some 1 ∧
    ¬((bodyPollNext "t" overLimitState).2 = some (.error .overflow)) := by
  refine ⟨rfl, rfl, rfl, ?_⟩
  decide

/-- Claim C9: the Drop implementation of the buffering stream performs no
file operation for a memory-mode buffer; for a file-mode buffer it removes
exactly the backing path, and a failed removal is logged (the
loggedRemoveError effect, a println in the source) rather than a panic.
The drop handler runs on every teardown of the stream value, Rust tying it
to scope exit on all paths including early drop of an in-flight message. -/
theorem claim_C9 (s : FileBufferingStream) (removeSucceeds : Bool) :
    (∀ data, s.buffer = .memory data →
      dropFileBufferingStream s removeSucceeds = .noFileOp) ∧
    (∀ p c pos, s.buffer = .file p c pos →
      dropFileBufferingStream s removeSucceeds =
        (if removeSucceeds then .removedFile p
          else .loggedRemoveError p)) := by
  constructor
  · intro data h
    simp [dropFileBufferingStream, h]
  · intro p c pos h
    simp only [dropFileBufferingStream, h]

/-- Concrete instantiation of claim C9: dropping a memory-mode buffer does
nothing to the filesystem; dropping a file-mode buffer whose removal fails
logs the error for its path. -/
theorem claim_C9_witness :
    dropFileBufferingStream midPassState true = .noFileOp ∧
    dropFileBufferingStream fileModeState false =
      .loggedRemoveError "tmp" := by
  constructor
  · exact (claim_C9 midPassState true).1 [1, 2, 3] rfl
  · have h := (claim_C9 fileModeState false).2 "tmp" [9] 1 rfl
    simpa using h

/-- Concrete instantiation of claim C7: threshold 1 and block size 2, so
the two written chunks spill to file-mode; the pass returns blocks of at
most two bytes concatenating to the four bytes written, twice
identically. -/
theorem claim_C7_witness :
    (∀ c ∈ (readPass (writeSeq (fun _ => "u") 0
        (FileBufferingStream.new [] 1 2 none) [[1, 2, 3], [4]])).1,
      c.length ≤ 2) ∧
    ((readPass (writeSeq (fun _ => "u") 0
        (FileBufferingStream.new [] 1 2 none) [[1, 2, 3], [4]])).1).flatten =
      ([[1, 2, 3], [4]] : List Chunk).flatten ∧
    (readPass ((readPass (writeSeq (fun _ => "u") 0
        (FileBufferingStream.new [] 1 2 none) [[1, 2, 3], [4]])).2)).1 =
      (readPass (writeSeq (fun _ => "u") 0
        (FileBufferingStream.new [] 1 2 none) [[1, 2, 3], [4]])).1 :=
  claim_C7 (fun _ => "u") 1 2 none [] [[1, 2, 3], [4]] (by decide)

theorem drainAux_spec (names : Nat → String) (cs : List Chunk) :
    ∀ (k : Nat) (s : FileBufferingStream),
    s.inner_eof = false → s.inner = cs.map Except.ok →
    drainAux names (cs.length + 1) k s =
      (cs, { writeSeq names k s cs with inner := [], inner_eof := true },
        true) := by
  induction cs with
  | nil =>
      intro k s heof hinner
      obtain ⟨inn, eof, th, bl, lim, buf, size, idx⟩ := s
      simp only [List.map_nil] at heof hinner
      subst heof hinner
      rfl
  | cons c cs ih =>
      intro k s heof hinner
      have hstep : bodyPollNext (names k) s =
          (write_to_buffer (names k) { s with inner := cs.map Except.ok } c,
            some (.ok c)) := by
        simp only [bodyPollNext, heof, hinner, List.map_cons]
        simp
      have hi := ih (k + 1)
        (write_to_buffer (names k) { s with inner := cs.map Except.ok } c)
        (by rw [write_to_buffer_inner_eof]; exact heof)
        (by rw [write_to_buffer_inner])
      rw [show (c :: cs).length + 1 = (cs.length + 1) + 1 from by simp]
      rw [drainAux, hstep]
      simp only []
      rw [hi, writeSeq, write_to_buffer_set_inner, writeSeq_set_inner]

/-- Claim C8: for every downstream response, the sign middleware feeds the
complete response body, in order, through the JWS writer — the attached
x-jws-signature header value is the detached token computed over exactly
the concatenated body bytes — and the body ultimately delivered to the
caller (the replay pass over the buffering stream handed back as the
response body) is byte-identical to the downstream handler's original
response body.  Stated for every positive produce block size; the default
buffering wrapper uses 30720. -/
theorem claim_C8 (tokenOf : List Nat → String) (names : Nat → String)
    (th bl : Nat) (lim : Option Nat) (res : ServiceResponse)
    (hbl : 0 < bl) :
    ∃ out, signCall tokenOf names th bl lim res = some out ∧
      headerGet out.headers "x-jws-signature" =
        some (tokenOf res.body.flatten) ∧
      out.body.flatten = res.body.flatten := by
  have hwf0 : writePhaseWf
      (FileBufferingStream.new (res.body.map Except.ok) th bl lim) :=
    new_writePhaseWf _ th bl lim
  have hdr := drainAux_spec names res.body 0
    (FileBufferingStream.new (res.body.map Except.ok) th bl lim) rfl rfl
  have hwfW : writePhaseWf (writeSeq names 0 (FileBufferingStream.new (res.body.map Except.ok) th bl lim) res.body) :=
    writeSeq_wf names res.body 0 _ hwf0
  have hcont : (writeSeq names 0 (FileBufferingStream.new (res.body.map Except.ok) th bl lim) res.body).buffer.contents = res.body.flatten := by
    rw [writeSeq_contents names res.body 0 _ hwf0]
    rfl
  have hwfE : ({ writeSeq names 0 (FileBufferingStream.new (res.body.map Except.ok) th bl lim) res.body with inner := [], inner_eof := true } : FileBufferingStream).buffer_size = ({ writeSeq names 0 (FileBufferingStream.new (res.body.map Except.ok) th bl lim) res.body with inner := [], inner_eof := true } : FileBufferingStream).buffer.contents.length := by
    show (writeSeq names 0 (FileBufferingStream.new (res.body.map Except.ok) th bl lim) res.body).buffer_size = (writeSeq names 0 (FileBufferingStream.new (res.body.map Except.ok) th bl lim) res.body).buffer.contents.length
    exact hwfW.1
  have hidxE : ({ writeSeq names 0 (FileBufferingStream.new (res.body.map Except.ok) th bl lim) res.body with inner := [], inner_eof := true } : FileBufferingStream).produce_index = 0 := by
    show (writeSeq names 0 (FileBufferingStream.new (res.body.map Except.ok) th bl lim) res.body).produce_index = 0
    rw [writeSeq_index]
    rfl
  have hblockE : ({ writeSeq names 0 (FileBufferingStream.new (res.body.map Except.ok) th bl lim) res.body with inner := [], inner_eof := true } : FileBufferingStream).produce_block_size = bl := by
    show (writeSeq names 0 (FileBufferingStream.new (res.body.map Except.ok) th bl lim) res.body).produce_block_size = bl
    rw [writeSeq_block]
    rfl
  have hcontE : ({ writeSeq names 0 (FileBufferingStream.new (res.body.map Except.ok) th bl lim) res.body with inner := [], inner_eof := true } : FileBufferingStream).buffer.contents = res.body.flatten := by
    show (writeSeq names 0 (FileBufferingStream.new (res.body.map Except.ok) th bl lim) res.body).buffer.contents = res.body.flatten
    exact hcont
  obtain ⟨s1, hpass, _, _, _, _⟩ := readPass_spec ({ writeSeq names 0 (FileBufferingStream.new (res.body.map Except.ok) th bl lim) res.body with inner := [], inner_eof := true }) hwfE hidxE (by rw [hblockE]; exact hbl)
  refine ⟨{ headers := ("x-jws-signature", tokenOf res.body.flatten) :: res.headers, body := (readPass { writeSeq names 0 (FileBufferingStream.new (res.body.map Except.ok) th bl lim) res.body with inner := [], inner_eof := true }).1 }, ?_, ?_, ?_⟩
  · simp only [signCall]
    rw [hdr]
    rfl
  · simp [headerGet]
  · show ((readPass ({ writeSeq names 0 (FileBufferingStream.new (res.body.map Except.ok) th bl lim) res.body with inner := [], inner_eof := true } : FileBufferingStream)).1).flatten = res.body.flatten
    rw [hpass]
    show (chunksOf ({ writeSeq names 0 (FileBufferingStream.new (res.body.map Except.ok) th bl lim) res.body with inner := [], inner_eof := true } : FileBufferingStream).produce_block_size ({ writeSeq names 0 (FileBufferingStream.new (res.body.map Except.ok) th bl lim) res.body with inner := [], inner_eof := true } : FileBufferingStream).buffer.contents).flatten = res.body.flatten
    rw [hblockE, hcontE]
    exact chunksOf_flatten bl hbl res.body.flatten.length res.body.flatten le_rfl

/-- Concrete instantiation of claim C8: default-like configuration with
threshold 1 (forcing a spill) and block size 2; the four body bytes are
signed and delivered unchanged. -/
theorem claim_C8_witness :
    ∃ out, signCall (fun _ => "tok") (fun _ => "u") 1 2 none
        { headers := [("a", "b")], body := [[1, 2, 3], [4]] } = some out ∧
      headerGet out.headers "x-jws-signature" =
        some ((fun _ => "tok")
          (({ headers := [("a", "b")], body := [[1, 2, 3], [4]] }
            : ServiceResponse)).body.flatten) ∧
      out.body.flatten =
        (({ headers := [("a", "b")], body := [[1, 2, 3], [4]] }
          : ServiceResponse)).body.flatten :=
  claim_C8 (fun _ => "tok") (fun _ => "u") 1 2 none
    { headers := [("a", "b")], body := [[1, 2, 3], [4]] } (by decide)

/-! ## Verify middleware: concrete fixtures and claims -/

/-- Claim C1 (code bug): on a request with a present, valid signature and a
one-byte body, the verify middleware forwards the request downstream with
an empty payload — take_payload hands the raw stream to the digest writer
and the payload is never restored, so the downstream service does not see
a buffered byte-identical copy of the inbound body. -/
theorem claim_C1 :
    verifyCall acceptOpts signedReq =
      .forwarded { headers := [("X-JWS-Signature", "tok")], payload := [] } ∧
    signedReq.payload = [Except.ok [1]] ∧
    ¬(verifyCall acceptOpts signedReq =
      .forwarded { headers := [("X-JWS-Signature", "tok")], payload := [Except.ok [1]] }) := by
  refine ⟨rfl, rfl, ?_⟩
  decide

/-- Claim C2 (code bug): whenever the digest writer's finish() reports that
the signature does not match the drained body bytes, verify.rs maps the
resulting error to VerifyErrorType.other — the request is rejected with
kind Other, never IncorrectSignature (that enum variant is declared, and
handled in the crate's own documentation example, but never produced). -/
theorem claim_C2 (opts : VerifyOptions) (req0 req : ServiceRequest)
    (hpol : (match opts.should_verify with
      | some f => f req0
      | none => (req0, true)) = (req, true))
    (jws hdr : String) (v : Verifier) (sig bytes : List Nat)
    (hhdr : headerGet req.headers "X-JWS-Signature" = some jws)
    (hnew : deserializeJwsWriterNew opts.parse opts.selector jws =
      some (hdr, v, sig))
    (hdrain : drainPayload req.payload = some bytes)
    (hmis : v bytes sig = false) :
    verifyCall opts req0 = .rejected .other ∧
    verifyCall opts req0 ≠ .rejected .incorrectSignature := by
  have hb : verifyBranch opts req = .rejected .other := by
    simp only [verifyBranch, hhdr, hnew, hdrain]
    rw [if_neg (by simp [hmis])]
  have h : verifyCall opts req0 = .rejected .other := by
    simp only [verifyCall, hpol]
    exact hb
  refine ⟨h, ?_⟩
  rw [h]
  intro hcon
  exact VerifyOutcome.noConfusion hcon (fun he => VerifyErrorType.noConfusion he)

/-- Concrete instantiation of claim C2: a verifier that rejects the
signature yields a rejection with kind Other, not IncorrectSignature. -/
theorem claim_C2_witness :
    verifyCall mismatchOpts signedReq = .rejected .other ∧
    verifyCall mismatchOpts signedReq ≠ .rejected .incorrectSignature :=
  claim_C2 mismatchOpts signedReq signedReq rfl "tok" "h"
    (fun _ _ => false) [7] [1] rfl rfl rfl rfl

/-- Claim C3 (amended: when the caller supplies no should_verify policy the
middleware runs verification on every request, whether or not the
X-JWS-Signature header is present; a request without the header is then
rejected with HeaderNotFound instead of being forwarded unverified): the
default-policy call equals the verification branch unconditionally, and a
missing header under the default policy yields the HeaderNotFound
rejection. -/
theorem claim_C3 (parse : String → Option (String × List Nat))
    (selector : String → Option Verifier) (req : ServiceRequest) :
    verifyCall { parse := parse, selector := selector, should_verify := none } req = verifyBranch { parse := parse, selector := selector, should_verify := none } req ∧
    (headerGet req.headers "X-JWS-Signature" = none →
      verifyCall { parse := parse, selector := selector, should_verify := none } req = .rejected .headerNotFound) := by
  refine ⟨rfl, fun h => ?_⟩
  show verifyBranch { parse := parse, selector := selector, should_verify := none } req = .rejected .headerNotFound
  simp only [verifyBranch, h]

/-- Concrete instantiation of claim C3 (amended): under the default policy
a headerless request reaches the verification branch and is rejected with
HeaderNotFound. -/
theorem claim_C3_witness :
    verifyCall acceptOpts bareReq = verifyBranch acceptOpts bareReq ∧
    (headerGet bareReq.headers "X-JWS-Signature" = none →
      verifyCall acceptOpts bareReq = .rejected .headerNotFound) :=
  claim_C3 (fun _ => some ("h", [])) (fun _ => some (fun _ _ => true))
    bareReq

/-- Claim C3, as literally stated, fails on the code: with no should_verify
policy supplied, a request lacking the X-JWS-Signature header is not
skipped and forwarded — the default policy answers true unconditionally
(verify.rs: None => (req, true)) and the headerless request is rejected
with HeaderNotFound. -/
theorem claim_C3_counterexample :
    verifyCall acceptOpts bareReq = .rejected .headerNotFound ∧
    verifyCall acceptOpts bareReq ≠ .forwarded bareReq := by
  refine ⟨rfl, ?_⟩
  decide

/-- Claim C4: whenever the decision policy mandates verification, the
middleware is fail-closed — a missing X-JWS-Signature header is rejected
with HeaderNotFound, and an unparseable token or unresolvable (unsupported)
algorithm, i.e. a failed DeserializeJwsWriter construction, is rejected
with Other; in each case an error is returned and the request is never
forwarded to the downstream service. -/
theorem claim_C4 (opts : VerifyOptions) (req0 req : ServiceRequest)
    (hpol : (match opts.should_verify with
      | some f => f req0
      | none => (req0, true)) = (req, true)) :
    (headerGet req.headers "X-JWS-Signature" = none →
      verifyCall opts req0 = .rejected .headerNotFound ∧
      ∀ r, verifyCall opts req0 ≠ .forwarded r) ∧
    (∀ jws, headerGet req.headers "X-JWS-Signature" = some jws →
      deserializeJwsWriterNew opts.parse opts.selector jws = none →
      verifyCall opts req0 = .rejected .other ∧
      ∀ r, verifyCall opts req0 ≠ .forwarded r) := by
  constructor
  · intro hh
    have hb : verifyBranch opts req = .rejected .headerNotFound := by
      simp only [verifyBranch, hh]
    have h : verifyCall opts req0 = .rejected .headerNotFound := by
      simp only [verifyCall, hpol]
      exact hb
    refine ⟨h, fun r => ?_⟩
    rw [h]
    intro hcon
    exact VerifyOutcome.noConfusion hcon
  · intro jws hh hnew
    have hb : verifyBranch opts req = .rejected .other := by
      simp only [verifyBranch, hh, hnew]
    have h : verifyCall opts req0 = .rejected .other := by
      simp only [verifyCall, hpol]
      exact hb
    refine ⟨h, fun r => ?_⟩
    rw [h]
    intro hcon
    exact VerifyOutcome.noConfusion hcon

/-- Concrete instantiation of claim C4: under the mandated default policy,
a headerless request is rejected with HeaderNotFound, and a request whose
signature token does not parse is rejected with Other; neither is
forwarded. -/
theorem claim_C4_witness :
    (verifyCall acceptOpts bareReq = .rejected .headerNotFound ∧
      ∀ r, verifyCall acceptOpts bareReq ≠ .forwarded r) ∧
    (verifyCall noParseOpts signedReq = .rejected .other ∧
      ∀ r, verifyCall noParseOpts signedReq ≠ .forwarded r) :=
  ⟨(claim_C4 acceptOpts bareReq bareReq rfl).1 rfl,
    (claim_C4 noParseOpts signedReq signedReq rfl).2 "tok" rfl rfl⟩
